import Mathlib

/-!
Verification development for the controller-comparison analysis script
(`Analysis.py`).  The script loads one CSV log per (controller, disturbance
level) pair, computes five scalar metrics per run inside `compute_metrics`,
aggregates the rounded metrics into a sorted table and writes the table and
charts with a primary/fallback path policy.

Numeric values are embedded as exact rationals (`ℚ`); the square root in the
RMSE is taken in `ℝ`.  Column accesses `df['time']`, `df['ez']`, `df['u']`,
`df['pos_z']` become projections of a list of samples.
-/

namespace Analysis

/-- One row of a log CSV: columns `time`, `ez`, `u`, `pos_z`. -/
structure Sample where
  time : ℚ
  ez : ℚ
  u : ℚ
  posz : ℚ
deriving DecidableEq, Repr

/-- A loaded run: the ordered sequence of samples of one log file. -/
abbrev Run := List Sample

/-- Column `time` of a run. -/
def times (df : Run) : List ℚ := df.map Sample.time

/-- Column `ez` of a run. -/
def ezs (df : Run) : List ℚ := df.map Sample.ez

/-- Column `u` of a run. -/
def us (df : Run) : List ℚ := df.map Sample.u

/-- Column `pos_z` of a run. -/
def poszs (df : Run) : List ℚ := df.map Sample.posz

/-- Default `target_z=0.7` of `compute_metrics`. -/
def target_z : ℚ := 7/10

/-- Default `settling_threshold=0.014` of `compute_metrics`. -/
def settling_threshold : ℚ := 14/1000

/-- Default `min_settling_duration=2.0` of `compute_metrics`. -/
def min_settling_duration : ℚ := 2

/-- The hard-coded energy scaling factor `2000` on the `control_energy` line. -/
def energy_scale : ℚ := 2000

/-- `np.mean` of a list of rationals (0 on the empty list, where numpy
would produce NaN; the callers below guard the empty case). -/
def mean (l : List ℚ) : ℚ := l.sum / l.length

/-- `df['time'].diff()` without its leading NaN: the list of consecutive
differences `t_{i+1} - t_i`. -/
def diffs (l : List ℚ) : List ℚ := List.zipWith (fun a b => a - b) l.tail l

/-- `dt = df['time'].diff().mean()`, with the `np.isnan(dt)` fallback to the
default time step `0.2`: the mean is NaN exactly when the run has at most one
sample, so fewer than one consecutive difference exists. -/
def dtOf (df : Run) : ℚ :=
  if df.length ≤ 1 then 1/5 else mean (diffs (times df))

/-- Python `int()` on a rational: truncation toward zero. -/
def pyInt (q : ℚ) : ℤ := if 0 ≤ q then ⌊q⌋ else ⌈q⌉

/-- `window_size = max(1, int(min_settling_duration / dt))`.
(When `dt = 0` the Python code overflows on `int(inf)`; theorems about the
settling scan therefore carry a `dtOf df ≠ 0` hypothesis.) -/
def window_size (df : Run) : ℕ :=
  max 1 (pyInt (min_settling_duration / dtOf df)).toNat

/-- `np.all(np.abs(window) <= settling_threshold)` for the window
`df['ez'].iloc[i:i+ws]`. -/
def windowOk (df : Run) (i : ℕ) : Bool :=
  (((ezs df).drop i).take (window_size df)).all (fun e => decide (|e| ≤ settling_threshold))

/-- The `for i in range(...)` search: starting at index `start`, try `count`
consecutive indices and return the first one satisfying `p`. -/
def findFirstIdx (p : ℕ → Bool) : ℕ → ℕ → Option ℕ
  | _, 0 => none
  | start, count + 1 =>
    if p start then some start else findFirstIdx p (start + 1) count

/-- The index found by the settling loop
`for i in range(len(df) - window_size)` (note: the window starting at index
`len(df) - window_size` itself is never examined). -/
def settleIdx (df : Run) : Option ℕ :=
  findFirstIdx (windowOk df) 0 (df.length - window_size df)

/-- `df['time'].iloc[-1]`, the final timestamp. -/
def lastTime (df : Run) : ℚ := ((times df).getLast?).getD 0

/-- `df['time'].iloc[0]`, the first timestamp. -/
def firstTime (df : Run) : ℚ := (times df).headD 0

/-- The settling time reported by `compute_metrics`: the timestamp at the
start of the first passing window, and the final timestamp when the loop
finds none (the `settling_time != np.inf` replacement on the return line). -/
def settling_time (df : Run) : ℚ :=
  match settleIdx df with
  | some i => (times df).getD i 0
  | none => lastTime df

/-- `np.mean(df['ez']**2)`, the mean square error (the quantity under the
square root of the RMSE). -/
def mse (df : Run) : ℚ := mean ((ezs df).map (fun e => e ^ 2))

/-- `mae_z = np.mean(np.abs(df['ez']))`. -/
def mae (df : Run) : ℚ := mean ((ezs df).map (fun e => |e|))

/-- `np.sum(df['u']**2) * c` for an arbitrary scale constant `c`. -/
def control_energy_scaled (c : ℚ) (df : Run) : ℚ :=
  (((us df).map (fun x => x ^ 2)).sum) * c

/-- `control_energy = np.sum(df['u']**2) * 2000`. -/
def control_energy (df : Run) : ℚ := control_energy_scaled energy_scale df

/-- `np.max` on a list of rationals (0 on the empty list, where numpy
raises; the claims only concern non-empty runs). -/
def npMax : List ℚ → ℚ
  | [] => 0
  | x :: xs => xs.foldl max x

/-- `overshoot = max(0, np.max(df['pos_z'] - target_z))`. -/
def overshoot (df : Run) : ℚ := max 0 (npMax ((poszs df).map (fun p => p - target_z)))

/-- `rmse_z = np.sqrt(np.mean(df['ez']**2))`. -/
noncomputable def rmse (df : Run) : ℝ := Real.sqrt (mse df)

/-! ## Rounding at the reporting boundary -/

/-- Python banker's rounding of a rational to the nearest integer:
round-half-to-even, as `round()` performs on the scaled value. -/
def rndHalfEven (q : ℚ) : ℤ :=
  if q - ⌊q⌋ < 1/2 then ⌊q⌋
  else if 1/2 < q - ⌊q⌋ then ⌊q⌋ + 1
  else if ⌊q⌋ % 2 = 0 then ⌊q⌋ else ⌊q⌋ + 1

/-- Python `round(q, d)`: round half to even at `d` decimal places. -/
def pyRound (d : ℕ) (q : ℚ) : ℚ := (rndHalfEven (q * 10 ^ d) : ℚ) / 10 ^ d

/-- Banker's rounding of a real to the nearest integer (used only for the
reported RMSE, which carries a square root). -/
noncomputable def rndHalfEvenR (x : ℝ) : ℤ :=
  if x - ⌊x⌋ < 1/2 then ⌊x⌋
  else if 1/2 < x - ⌊x⌋ then ⌊x⌋ + 1
  else if ⌊x⌋ % 2 = 0 then ⌊x⌋ else ⌊x⌋ + 1

/-- Python `round(x, d)` on a real value. -/
noncomputable def pyRoundR (d : ℕ) (x : ℝ) : ℝ := (rndHalfEvenR (x * 10 ^ d) : ℝ) / 10 ^ d

/-! ## The per-run metric computation and its reported row -/

/-- The dictionary returned by `compute_metrics` (settling time already has
its `np.inf` sentinel replaced by the final timestamp). -/
structure MetricSet where
  rmseVal : ℝ
  maeVal : ℚ
  settlingVal : ℚ
  energyVal : ℚ
  overshootVal : ℚ

/-- `compute_metrics(df)` with the default configuration. -/
noncomputable def compute_metrics (df : Run) : MetricSet :=
  { rmseVal := rmse df
    maeVal := mae df
    settlingVal := settling_time df
    energyVal := control_energy df
    overshootVal := overshoot df }

/-- The five values appended to the `results` dictionary for one run
(lines `results[...].append(round(metrics[...], k))`). -/
noncomputable def reportedValues (df : Run) : ℝ × ℚ × ℚ × ℚ × ℚ :=
  (pyRoundR 3 (compute_metrics df).rmseVal,
   pyRound 3 (compute_metrics df).maeVal,
   pyRound 1 (compute_metrics df).settlingVal,
   pyRound 1 (compute_metrics df).energyVal,
   pyRound 2 (compute_metrics df).overshootVal)

/-! ## The processing loop over (controller, disturbance) pairs -/

/-- The `controllers` list entries. -/
inductive Controller
  | pid
  | fixed_ladrc
  | t3_fuzzy_ladrc
deriving DecidableEq, Repr

/-- The `dist_levels` list entries. -/
inductive DistLevel
  | low
  | moderate
  | extreme
deriving DecidableEq, Repr

/-- The `controllers` list, in source order. -/
def controllersList : List Controller :=
  [Controller.pid, Controller.fixed_ladrc, Controller.t3_fuzzy_ladrc]

/-- The `dist_levels` list, in source order. -/
def distLevelsList : List DistLevel :=
  [DistLevel.low, DistLevel.moderate, DistLevel.extreme]

/-- `dist.capitalize()`, the `Level` cell of a row. -/
def levelLabel : DistLevel → String
  | DistLevel.low => "Low"
  | DistLevel.moderate => "Moderate"
  | DistLevel.extreme => "Extreme"

/-- The `Controller` cell of a row (the chained conditional on line 86). -/
def controllerLabel : Controller → String
  | Controller.pid => "PID"
  | Controller.fixed_ladrc => "Fixed LADRC"
  | Controller.t3_fuzzy_ladrc => "T3-FA-LADRC"

/-- One row of the result table.  The metric payload is a type parameter:
the sorting and row-counting logic of the script never inspects the five
metric cells, only the `Level` and `Controller` cells. -/
structure Row (M : Type) where
  level : String
  controller : String
  metrics : M
deriving DecidableEq, Repr

/-- The iteration order of the nested `for controller ... for dist ...`
loops. -/
def allPairs : List (Controller × DistLevel) :=
  controllersList.flatMap (fun c => distLevelsList.map (fun d => (c, d)))

/-- The processing loop: for each (controller, dist) pair in loop order, try
to load and process the run; a pair whose load (or metric computation) raises
is skipped — the `except` branch only logs — and every successful pair
appends one row built from its own run alone. `load` abstracts the filesystem:
`none` models any exception inside the `try` block for that pair. -/
def processAll {M : Type} (mk : Controller → DistLevel → Run → M)
    (load : Controller → DistLevel → Option Run) : List (Row M) :=
  allPairs.filterMap (fun p =>
    (load p.1 p.2).map (fun df =>
      { level := levelLabel p.2, controller := controllerLabel p.1
        metrics := mk p.1 p.2 df }))

/-! ## Sorting the result table -/

/-- The `.map({...}).fillna(0)` rank of a `Level` cell. -/
def levelRank (s : String) : ℕ :=
  if s = "Low" then 1 else if s = "Moderate" then 2 else if s = "Extreme" then 3 else 0

/-- The `.map({...}).fillna(0)` rank of a `Controller` cell. -/
def controllerRank (s : String) : ℕ :=
  if s = "PID" then 1 else if s = "Fixed LADRC" then 2 else if s = "T3-FA-LADRC" then 3 else 0

/-- The combined sort key of a row: level rank first, controller rank second.
Controller ranks lie in `{0,1,2,3}`, so `4*levelRank + controllerRank` orders
pairs exactly lexicographically. -/
def rowKey {M : Type} (r : Row M) : ℕ :=
  4 * levelRank r.level + controllerRank r.controller

/-- The comparison realising `sort_values(by=["Level", "Controller"])` with
the rank-mapping key. -/
def rowLE {M : Type} (a b : Row M) : Prop := rowKey a ≤ rowKey b

instance {M : Type} : DecidableRel (rowLE (M := M)) :=
  fun a b => Nat.decLe (rowKey a) (rowKey b)

instance {M : Type} : IsTotal (Row M) rowLE :=
  ⟨fun a b => Nat.le_total (rowKey a) (rowKey b)⟩

instance {M : Type} : IsTrans (Row M) rowLE :=
  ⟨fun _ _ _ hab hbc => Nat.le_trans hab hbc⟩

/-- `results_df.sort_values(...)`: sort the rows by (level rank, controller
rank). -/
def sortRows {M : Type} (rows : List (Row M)) : List (Row M) :=
  rows.insertionSort rowLE

/-! ## The primary/fallback write policy -/

/-- Where a `try: save(primary) except PermissionError: save(fallback)` block
ends up writing, as a function of which locations are writable.  `fatal`
models the uncaught exception when the fallback write also fails. -/
inductive WriteOutcome
  | wrotePrimary
  | wroteFallback
  | fatal
deriving DecidableEq, Repr

/-- The fallback policy of the table save (lines 103–109) and of every chart
save: attempt the primary location; on `PermissionError` attempt the fallback
location inside the `except` handler, where a second failure propagates. -/
def writeWithFallback (primaryWritable fallbackWritable : Bool) : WriteOutcome :=
  if primaryWritable then WriteOutcome.wrotePrimary
  else if fallbackWritable then WriteOutcome.wroteFallback
  else WriteOutcome.fatal

/-! ## Spec-side formulations of the settling-time computation -/

/-- The window size as claim C1 words it: `max(1, round(min_settling_duration
/ dt))` with rounding to the nearest integer.  (Python `round` breaks ties to
even; the two agree away from exact ties, and every input the theorems below
touch is tie-free.) -/
def claimedWindowSize (df : Run) : ℕ :=
  max 1 (round (min_settling_duration / dtOf df)).toNat

/-- The window test of the claimed settling computation (same test as
`windowOk`, but with the claimed window size). -/
def claimedWindowOk (df : Run) (i : ℕ) : Bool :=
  (((ezs df).drop i).take (claimedWindowSize df)).all
    (fun e => decide (|e| ≤ settling_threshold))

/-- The settling-time computation exactly as the specification words it: the
window size uses `round` and the scan visits every window of that length,
i.e. start indices `0, …, n − ws` inclusive (`n + 1 - ws` of them). -/
def settlingTimeClaimed (df : Run) : ℚ :=
  match findFirstIdx (claimedWindowOk df) 0 (df.length + 1 - claimedWindowSize df) with
  | some i => (times df).getD i 0
  | none => lastTime df

/-- The window starting at sample `i` keeps `|ez|` within the threshold for
the whole window (quantifier form of `windowOk`). -/
def windowPassP (df : Run) (i : ℕ) : Prop :=
  ∀ j < window_size df, |(ezs df).getD (i + j) 0| ≤ settling_threshold

instance (df : Run) (i : ℕ) : Decidable (windowPassP df i) :=
  inferInstanceAs (Decidable (∀ j < window_size df,
    |(ezs df).getD (i + j) 0| ≤ settling_threshold))

/-- The amended settling-time description: the window size truncates
`min_settling_duration / dt` toward zero, and the scan stops one window
short, visiting only start indices `0 ≤ i < n − ws`; the result is the
timestamp at the least passing start index, and the final timestamp when no
visited window passes. -/
def settlingTimeAmended (df : Run) : ℚ :=
  if h : ∃ i < df.length - window_size df, windowPassP df i
  then (times df).getD (Nat.find h) 0
  else lastTime df

/-- The sort key a row produced for pair `(c, d)` receives. -/
def pairKey (p : Controller × DistLevel) : ℕ :=
  4 * levelRank (levelLabel p.2) + controllerRank (controllerLabel p.1)

/-! ## Concrete inputs used by counterexamples and witnesses -/

/-- A run with mean time step `0.75`: `int(2.0/0.75) = 2` truncates where
`round(2.0/0.75) = 3` rounds up, and the first two `ez` values are inside
the threshold while the rest sit outside it. -/
def cxC1run : Run :=
  [⟨0, 0, 0, 7/10⟩, ⟨3/4, 0, 0, 7/10⟩, ⟨3/2, 1/50, 0, 7/10⟩,
   ⟨9/4, 1/50, 0, 7/10⟩, ⟨3, 1/50, 0, 7/10⟩]

/-- A two-sample zero-error run: its settling window (2 samples) is as long
as the run, so the settling loop `range(2 - 2)` runs zero iterations. -/
def cxC2run : Run := [⟨0, 0, 0, 7/10⟩, ⟨1, 0, 0, 7/10⟩]

/-- A three-sample zero-error run, strictly longer than its settling
window. -/
def witC2run : Run := [⟨0, 0, 0, 7/10⟩, ⟨1, 0, 0, 7/10⟩, ⟨2, 0, 0, 7/10⟩]

/-- A run with `|ez| = 0.02` throughout (above the `0.014` threshold). -/
def witC6run : Run := [⟨0, 1/50, 0, 7/10⟩, ⟨1, -1/50, 0, 71/100⟩, ⟨2, 1/50, 0, 72/100⟩]

/-- A single-sample run whose `mae` is `1/3`, a value that genuinely changes
under 3-decimal rounding. -/
def demoRun : Run := [⟨0, 1/3, 0, 7/10⟩]

/-- A load function under which exactly one run (pid, low) fails. -/
def failPidLow : Controller → DistLevel → Option Run
  | Controller.pid, DistLevel.low => none
  | _, _ => some [⟨0, 0, 0, 7/10⟩]

/-- A load function under which exactly two runs succeed. -/
def loadTwo : Controller → DistLevel → Option Run
  | Controller.pid, DistLevel.low => some [⟨0, 0, 0, 7/10⟩]
  | Controller.pid, DistLevel.moderate => some [⟨0, 0, 0, 7/10⟩]
  | _, _ => none

/-! ## Helper lemmas -/

lemma length_ezs (df : Run) : (ezs df).length = df.length := by
  simp [ezs]

lemma length_times (df : Run) : (times df).length = df.length := by
  simp [times]

lemma findFirstIdx_succ (p : ℕ → Bool) (start c : ℕ) :
    findFirstIdx p start (c + 1) =
      if p start then some start else findFirstIdx p (start + 1) c := rfl

lemma findFirstIdx_eq_some_iff {p : ℕ → Bool} {count : ℕ} :
    ∀ {start i : ℕ}, findFirstIdx p start count = some i ↔
      start ≤ i ∧ i < start + count ∧ p i = true ∧
        ∀ j, start ≤ j → j < i → p j = false := by
  induction count with
  | zero =>
    intro start i
    simp only [findFirstIdx]
    constructor
    · intro h; cases h
    · rintro ⟨h1, h2, -, -⟩; omega
  | succ c ih =>
    intro start i
    rw [findFirstIdx_succ]
    cases hps : p start with
    | true =>
      rw [if_pos rfl]
      constructor
      · rintro ⟨rfl⟩
        exact ⟨le_refl _, by omega, hps, fun j h1 h2 => absurd h1 (by omega)⟩
      · rintro ⟨h1, h2, h3, h4⟩
        rcases Nat.eq_or_lt_of_le h1 with rfl | h5
        · rfl
        · rw [h4 start (le_refl _) h5] at hps
          cases hps
    | false =>
      rw [if_neg (fun h => by cases h)]
      rw [ih]
      constructor
      · rintro ⟨h1, h2, h3, h4⟩
        refine ⟨by omega, by omega, h3, fun j hj1 hj2 => ?_⟩
        rcases Nat.eq_or_lt_of_le hj1 with rfl | h5
        · exact hps
        · exact h4 j (by omega) hj2
      · rintro ⟨h1, h2, h3, h4⟩
        have hne : i ≠ start := by
          rintro rfl
          rw [h3] at hps
          cases hps
        exact ⟨by omega, by omega, h3, fun j hj1 hj2 => h4 j (by omega) hj2⟩

lemma findFirstIdx_eq_none_iff {p : ℕ → Bool} {count : ℕ} :
    ∀ {start : ℕ}, findFirstIdx p start count = none ↔
      ∀ j, start ≤ j → j < start + count → p j = false := by
  induction count with
  | zero =>
    intro start
    simp only [findFirstIdx]
    exact ⟨fun _ j h1 h2 => absurd h1 (by omega), fun _ => trivial⟩
  | succ c ih =>
    intro start
    rw [findFirstIdx_succ]
    cases hps : p start with
    | true =>
      rw [if_pos rfl]
      constructor
      · intro hx; cases hx
      · intro H
        rw [H start (le_refl _) (by omega)] at hps
        cases hps
    | false =>
      rw [if_neg (fun h => by cases h)]
      rw [ih]
      constructor
      · intro H j hj1 hj2
        rcases Nat.eq_or_lt_of_le hj1 with rfl | h5
        · exact hps
        · exact H j (by omega) (by omega)
      · intro H j hj1 hj2
        exact H j (by omega) (by omega)

lemma all_window_iff (l : List ℚ) (i w : ℕ) (h : i + w ≤ l.length) :
    (((l.drop i).take w).all (fun e => decide (|e| ≤ settling_threshold)) = true) ↔
      ∀ j < w, |l.getD (i + j) 0| ≤ settling_threshold := by
  rw [List.all_eq_true]
  constructor
  · intro H j hj
    have hij : i + j < l.length := by omega
    have hmem : l[i + j] ∈ (l.drop i).take w := by
      rw [List.mem_iff_getElem]
      refine ⟨j, ?_, ?_⟩
      · simp only [List.length_take, List.length_drop]
        omega
      · simp
    have := H _ hmem
    rw [decide_eq_true_eq] at this
    rwa [List.getD_eq_getElem _ _ hij]
  · intro H x hx
    rw [List.mem_iff_getElem] at hx
    obtain ⟨j, hj, rfl⟩ := hx
    have hjw : j < w := by
      simp only [List.length_take, List.length_drop] at hj
      omega
    rw [decide_eq_true_eq]
    simp only [List.getElem_take, List.getElem_drop]
    have := H j hjw
    rwa [List.getD_eq_getElem _ _ (by omega : i + j < l.length)] at this

lemma windowOk_iff_pass (df : Run) (i : ℕ) (h : i + window_size df ≤ df.length) :
    windowOk df i = true ↔ windowPassP df i := by
  unfold windowOk windowPassP
  exact all_window_iff (ezs df) i (window_size df) (by rw [length_ezs]; exact h)

lemma claimedWindowOk_iff (df : Run) (i : ℕ) (h : i + claimedWindowSize df ≤ df.length) :
    claimedWindowOk df i = true ↔
      ∀ j < claimedWindowSize df, |(ezs df).getD (i + j) 0| ≤ settling_threshold := by
  unfold claimedWindowOk
  exact all_window_iff (ezs df) i (claimedWindowSize df) (by rw [length_ezs]; exact h)

lemma getD_zero_eq_headD (l : List ℚ) : l.getD 0 0 = l.headD 0 := by
  cases l <;> rfl

lemma getLastD_eq_getD (l : List ℚ) (h : l ≠ []) :
    (l.getLast?).getD 0 = l.getD (l.length - 1) 0 := by
  have hlen : l.length - 1 < l.length := by
    cases l with
    | nil => exact absurd rfl h
    | cons x xs => simp
  rw [List.getLast?_eq_getElem?, List.getD_eq_getElem l 0 hlen]
  rw [List.getElem?_eq_getElem hlen]
  rfl

lemma settling_time_eq_of_none {df : Run} (h : settleIdx df = none) :
    settling_time df = lastTime df := by
  rw [settling_time.eq_def, h]

lemma settling_time_eq_of_some {df : Run} {i : ℕ} (h : settleIdx df = some i) :
    settling_time df = (times df).getD i 0 := by
  rw [settling_time.eq_def, h]

lemma settlingTimeClaimed_eq_of_none {df : Run}
    (h : findFirstIdx (claimedWindowOk df) 0 (df.length + 1 - claimedWindowSize df) = none) :
    settlingTimeClaimed df = lastTime df := by
  rw [settlingTimeClaimed.eq_def, h]

lemma settlingTimeClaimed_eq_of_some {df : Run} {i : ℕ}
    (h : findFirstIdx (claimedWindowOk df) 0 (df.length + 1 - claimedWindowSize df) = some i) :
    settlingTimeClaimed df = (times df).getD i 0 := by
  rw [settlingTimeClaimed.eq_def, h]

lemma init_le_foldl_max (l : List ℚ) : ∀ a : ℚ, a ≤ l.foldl max a := by
  induction l with
  | nil => intro a; exact le_refl a
  | cons b t ih =>
    intro a
    exact le_trans (le_max_left a b) (ih (max a b))

lemma mem_le_foldl_max (l : List ℚ) : ∀ (a : ℚ), ∀ x ∈ l, x ≤ l.foldl max a := by
  induction l with
  | nil => intro a x hx; cases hx
  | cons b t ih =>
    intro a x hx
    rcases List.mem_cons.mp hx with rfl | hx
    · exact le_trans (le_max_right a x) (init_le_foldl_max t (max a x))
    · exact ih (max a b) x hx

lemma foldl_max_cases (l : List ℚ) : ∀ a : ℚ, l.foldl max a = a ∨ l.foldl max a ∈ l := by
  induction l with
  | nil => intro a; exact Or.inl rfl
  | cons b t ih =>
    intro a
    rcases ih (max a b) with h | h
    · rcases max_choice a b with hm | hm
      · exact Or.inl (by rw [List.foldl_cons, h, hm])
      · exact Or.inr (by rw [List.foldl_cons, h, hm]; exact List.mem_cons_self b t)
    · exact Or.inr (List.mem_cons_of_mem b h)

lemma le_npMax_of_mem {l : List ℚ} {x : ℚ} (hx : x ∈ l) : x ≤ npMax l := by
  cases l with
  | nil => cases hx
  | cons b t =>
    rcases List.mem_cons.mp hx with rfl | hx
    · exact init_le_foldl_max t x
    · exact mem_le_foldl_max t b x hx

lemma npMax_mem {l : List ℚ} (h : l ≠ []) : npMax l ∈ l := by
  cases l with
  | nil => exact absurd rfl h
  | cons b t =>
    rcases foldl_max_cases t b with hc | hc
    · rw [show npMax (b :: t) = t.foldl max b from rfl, hc]
      exact List.mem_cons_self b t
    · exact List.mem_cons_of_mem b hc

lemma npMax_le {l : List ℚ} {c : ℚ} (h : l ≠ []) (H : ∀ x ∈ l, x ≤ c) :
    npMax l ≤ c :=
  H _ (npMax_mem h)

/-! ## Lemmas about the processing loop and the sorted table -/

lemma length_filterMap_eq_length_filter {α β : Type} (f : α → Option β) (l : List α) :
    (l.filterMap f).length = (l.filter (fun x => (f x).isSome)).length := by
  induction l with
  | nil => rfl
  | cons x xs ih =>
    cases h : f x with
    | none => simp [List.filterMap_cons, List.filter_cons, h, ih]
    | some b => simp [List.filterMap_cons, List.filter_cons, h, ih]

lemma map_filterMap_sublist {α β γ : Type} (f : α → Option β) (g : β → γ) (g' : α → γ)
    (H : ∀ x a, f x = some a → g a = g' x) (l : List α) :
    ((l.filterMap f).map g).Sublist (l.map g') := by
  induction l with
  | nil => simp
  | cons x xs ih =>
    cases h : f x with
    | none =>
      rw [List.filterMap_cons, h, List.map_cons]
      exact ih.cons (g' x)
    | some b =>
      rw [List.filterMap_cons, h, List.map_cons, List.map_cons, H x b h]
      exact ih.cons₂ (g' x)

lemma rowKey_of_processAll {M : Type} (mk : Controller → DistLevel → Run → M)
    (load : Controller → DistLevel → Option Run) :
    ((processAll mk load).map rowKey).Sublist (allPairs.map pairKey) := by
  refine map_filterMap_sublist _ _ _ ?_ allPairs
  intro p r h
  cases hl : load p.1 p.2 with
  | none => rw [hl] at h; cases h
  | some df =>
    rw [hl] at h
    cases h
    rfl

lemma pairKeys_nodup : (allPairs.map pairKey).Nodup := by decide

lemma processAll_keys_nodup {M : Type} (mk : Controller → DistLevel → Run → M)
    (load : Controller → DistLevel → Option Run) :
    ((processAll mk load).map rowKey).Nodup :=
  (rowKey_of_processAll mk load).nodup pairKeys_nodup

lemma sorted_strict_of_sorted_nodup {M : Type} {l : List (Row M)}
    (hs : l.Sorted rowLE) (hnd : (l.map rowKey).Nodup) :
    l.Sorted (fun a b => rowKey a < rowKey b) := by
  have hne : l.Pairwise (fun a b => rowKey a ≠ rowKey b) :=
    (List.pairwise_map).mp hnd
  exact (hs.and hne).imp (fun h => lt_of_le_of_ne h.1 h.2)

lemma rowKeyLT_antisymm {M : Type} :
    ∀ a b : Row M, rowKey a < rowKey b → rowKey b < rowKey a → a = b :=
  fun _ _ h1 h2 => absurd h1 (by omega)

/-- Two sorted lists of rows with the same multiset of rows and pairwise
distinct sort keys are equal. -/
lemma sorted_rows_unique {M : Type} {l₁ l₂ : List (Row M)}
    (hp : l₁.Perm l₂) (hs₁ : l₁.Sorted rowLE) (hs₂ : l₂.Sorted rowLE)
    (hnd : (l₁.map rowKey).Nodup) : l₁ = l₂ := by
  have hnd₂ : (l₂.map rowKey).Nodup := ((hp.map rowKey).nodup_iff).mp hnd
  have : IsAntisymm (Row M) (fun a b => rowKey a < rowKey b) :=
    ⟨fun a b h1 h2 => rowKeyLT_antisymm a b h1 h2⟩
  exact List.eq_of_perm_of_sorted hp
    (sorted_strict_of_sorted_nodup hs₁ hnd)
    (sorted_strict_of_sorted_nodup hs₂ hnd₂)

/-! ## The claims -/

/-- C5: when the primary output location is not writable the output is
written to the fallback location and execution continues; a writable primary
is used directly; and only the failure of the fallback write itself is fatal
(uncaught). -/
theorem claim5_write_fallback (p f : Bool) :
    (p = false → f = true → writeWithFallback p f = WriteOutcome.wroteFallback) ∧
    (p = true → writeWithFallback p f = WriteOutcome.wrotePrimary) ∧
    (p = false → f = false → writeWithFallback p f = WriteOutcome.fatal) := by
  cases p <;> cases f <;> simp [writeWithFallback]

/-- Witness for C5 at a concrete input: unwritable primary, writable
fallback. -/
theorem claim5_write_fallback_witness :
    writeWithFallback false true = WriteOutcome.wroteFallback :=
  (claim5_write_fallback false true).1 rfl rfl

/-- C7: control energy is the sum of the squared control inputs times the
fixed scale constant 2000, and it is linear in that constant: doubling the
constant doubles the energy of the same `u` sequence. -/
theorem claim7_control_energy_scaling (df : Run) (c : ℚ) :
    control_energy df = (((us df).map (fun x => x ^ 2)).sum) * 2000 ∧
    control_energy_scaled (2 * c) df = 2 * control_energy_scaled c df := by
  constructor
  · rfl
  · unfold control_energy_scaled
    ring

/-- C8: the computed overshoot is never negative, whatever the sign of
`pos_z − target_z`, and it is zero exactly when `pos_z` never exceeds
`target_z`. -/
theorem claim8_overshoot_nonneg (df : Run) (hne : df ≠ []) :
    0 ≤ overshoot df ∧ (overshoot df = 0 ↔ ∀ s ∈ df, s.posz ≤ target_z) := by
  have hmapne : (poszs df).map (fun p => p - target_z) ≠ [] := by
    intro hc
    rw [List.map_eq_nil_iff] at hc
    rw [poszs, List.map_eq_nil_iff] at hc
    exact hne hc
  refine ⟨le_max_left 0 _, ?_, ?_⟩
  · intro h0 s hs
    have hm0 : npMax ((poszs df).map (fun p => p - target_z)) ≤ 0 := by
      rwa [overshoot, max_eq_left_iff] at h0
    have hmem : s.posz - target_z ∈ (poszs df).map (fun p => p - target_z) :=
      List.mem_map_of_mem _ (List.mem_map_of_mem _ hs)
    have := le_npMax_of_mem hmem
    linarith
  · intro H
    have hm0 : npMax ((poszs df).map (fun p => p - target_z)) ≤ 0 := by
      refine npMax_le hmapne ?_
      intro x hx
      simp only [poszs, List.map_map, List.mem_map, Function.comp] at hx
      obtain ⟨s, hs, rfl⟩ := hx
      have := H s hs
      linarith
    rw [overshoot]
    exact max_eq_left hm0

/-- Witness for C8 at a concrete one-sample run. -/
theorem claim8_overshoot_nonneg_witness : 0 ≤ overshoot demoRun :=
  (claim8_overshoot_nonneg demoRun (List.cons_ne_nil _ _)).1

/-- C6: a non-empty run whose `|ez|` is constantly `0.02` (above the
threshold `0.014`) never passes a settling window, so the computed settling
time is the final timestamp of the run. -/
theorem claim6_never_settles (df : Run) (hne : df ≠ [])
    (hez : ∀ s ∈ df, |s.ez| = 2/100)
    (hdt : df.length ≤ 1 ∨ dtOf df ≠ 0) :
    settling_time df = lastTime df := by
  have hnone : settleIdx df = none := by
    rw [settleIdx, findFirstIdx_eq_none_iff]
    intro j hj0 hj2
    cases hok : windowOk df j with
    | false => rfl
    | true =>
      exfalso
      have hws : 1 ≤ window_size df := le_max_left 1 _
      have hbound : j + window_size df ≤ df.length := by omega
      have hpass := (windowOk_iff_pass df j hbound).mp hok
      have h0 := hpass 0 (by omega)
      rw [Nat.add_zero] at h0
      have hjlt : j < (ezs df).length := by rw [length_ezs]; omega
      rw [List.getD_eq_getElem _ _ hjlt] at h0
      have hm : (ezs df)[j] ∈ ezs df := List.getElem_mem hjlt
      obtain ⟨s, hs, hse⟩ :=
        List.mem_map.mp (show (ezs df)[j] ∈ df.map Sample.ez from hm)
      rw [← hse] at h0
      rw [hez s hs] at h0
      norm_num [settling_threshold] at h0
  exact settling_time_eq_of_none hnone

/-- Witness for C6: a three-sample run with `|ez| = 0.02` throughout. -/
theorem claim6_never_settles_witness : settling_time witC6run = lastTime witC6run := by
  apply claim6_never_settles
  · exact List.cons_ne_nil _ _
  · intro s hs
    simp only [witC6run, List.mem_cons, List.not_mem_nil, or_false] at hs
    rcases hs with rfl | rfl | rfl <;> norm_num
  · right
    norm_num [dtOf, witC6run, mean, diffs, times]

/-- C10: for a non-empty run with monotonically non-decreasing timestamps,
the computed settling time is one of the run's own recorded timestamps and
lies between the first and the last timestamp inclusive (in particular it is
a finite recorded value, never the `np.inf` sentinel). -/
theorem claim10_settling_is_recorded (df : Run) (hne : df ≠ [])
    (hmono : (times df).Sorted (fun a b => a ≤ b))
    (hdt : df.length ≤ 1 ∨ dtOf df ≠ 0) :
    settling_time df ∈ times df ∧
      firstTime df ≤ settling_time df ∧ settling_time df ≤ lastTime df := by
  have htne : times df ≠ [] := by
    intro hc
    rw [times, List.map_eq_nil_iff] at hc
    exact hne hc
  have hlen0 : 0 < (times df).length := List.length_pos.mpr htne
  have hcomp : ∀ i j : ℕ, i ≤ j → j < (times df).length →
      (times df).getD i 0 ≤ (times df).getD j 0 := by
    intro i j hij hj
    have hi : i < (times df).length := by omega
    rw [List.getD_eq_getElem _ _ hi, List.getD_eq_getElem _ _ hj]
    rcases Nat.eq_or_lt_of_le hij with rfl | hlt
    · exact le_refl _
    · exact hmono.rel_get_of_lt (show (⟨i, hi⟩ : Fin (times df).length) < ⟨j, hj⟩ from hlt)
  have hlast : lastTime df = (times df).getD ((times df).length - 1) 0 :=
    getLastD_eq_getD _ htne
  have hfirst : firstTime df = (times df).getD 0 0 := (getD_zero_eq_headD _).symm
  cases hsi : settleIdx df with
  | none =>
    rw [settling_time_eq_of_none hsi]
    refine ⟨?_, ?_, le_refl _⟩
    · rw [hlast, List.getD_eq_getElem _ _ (by omega)]
      exact List.getElem_mem _
    · rw [hfirst, hlast]
      exact hcomp 0 _ (Nat.zero_le _) (by omega)
  | some i =>
    rw [settling_time_eq_of_some hsi]
    rw [settleIdx] at hsi
    obtain ⟨-, hilt, -, -⟩ := findFirstIdx_eq_some_iff.mp hsi
    have hi : i < (times df).length := by rw [length_times]; omega
    refine ⟨?_, ?_, ?_⟩
    · rw [List.getD_eq_getElem _ _ hi]
      exact List.getElem_mem _
    · rw [hfirst]
      exact hcomp 0 i (Nat.zero_le _) hi
    · rw [hlast]
      exact hcomp i _ (by omega) (by omega)

/-- Witness for C10 at a concrete monotone three-sample run. -/
theorem claim10_settling_is_recorded_witness :
    settling_time witC6run ∈ times witC6run ∧
      firstTime witC6run ≤ settling_time witC6run ∧
      settling_time witC6run ≤ lastTime witC6run := by
  apply claim10_settling_is_recorded
  · exact List.cons_ne_nil _ _
  · norm_num [times, witC6run, List.sorted_cons]
  · right
    norm_num [dtOf, witC6run, mean, diffs, times]

lemma length_processAll {M : Type} (mk : Controller → DistLevel → Run → M)
    (load : Controller → DistLevel → Option Run) :
    (processAll mk load).length
      = (allPairs.filter (fun p => (load p.1 p.2).isSome)).length := by
  rw [processAll, length_filterMap_eq_length_filter]
  apply congrArg List.length
  apply List.filter_congr
  intro p _
  cases load p.1 p.2 <;> rfl

lemma length_filter_add_length_filter_compl {α : Type} (p q : α → Bool)
    (hpq : ∀ x, p x = !(q x)) (l : List α) :
    (l.filter p).length + (l.filter q).length = l.length := by
  induction l with
  | nil => rfl
  | cons x xs ih =>
    cases hq : q x with
    | false =>
      have hp : p x = true := by rw [hpq x, hq]; rfl
      simp [List.filter_cons, hp, hq]
      omega
    | true =>
      have hp : p x = false := by rw [hpq x, hq]; rfl
      simp [List.filter_cons, hp, hq]
      omega

/-- C3: when loading (or processing) exactly one of the nine expected runs
fails, that run is omitted, the output table has exactly 8 rows, and every
run whose load succeeded still contributes its own row to the table. -/
theorem claim3_failed_run_skipped {M : Type}
    (mk : Controller → DistLevel → Run → M)
    (load : Controller → DistLevel → Option Run)
    (hone : (allPairs.filter (fun p => (load p.1 p.2).isNone)).length = 1) :
    (processAll mk load).length = 8 ∧
      ∀ p ∈ allPairs, ∀ df, load p.1 p.2 = some df →
        Row.mk (levelLabel p.2) (controllerLabel p.1) (mk p.1 p.2 df) ∈
          processAll mk load := by
  constructor
  · have hadd := length_filter_add_length_filter_compl
      (fun p : Controller × DistLevel => (load p.1 p.2).isSome)
      (fun p : Controller × DistLevel => (load p.1 p.2).isNone)
      (fun p => by cases h : load p.1 p.2 <;> simp [h]) allPairs
    have h9 : allPairs.length = 9 := rfl
    rw [length_processAll mk load]
    omega
  · intro p hp df hdf
    rw [processAll, List.mem_filterMap]
    exact ⟨p, hp, by rw [hdf]; rfl⟩

/-- Witness for C3: a load function under which exactly the (pid, low) run
fails; the table then has 8 rows. -/
theorem claim3_failed_run_skipped_witness :
    (processAll (fun _ _ _ => ()) failPidLow).length = 8 :=
  (claim3_failed_run_skipped (fun _ _ _ => ()) failPidLow rfl).1

/-- C4: whatever order the successfully processed rows arrive in, sorting
them yields the same table — row order is fully determined by the
(level rank, controller rank) pair, which is duplicate-free over the runs —
and the sorted table is ordered by that pair. -/
theorem claim4_table_order_canonical {M : Type}
    (mk : Controller → DistLevel → Run → M)
    (load : Controller → DistLevel → Option Run)
    (rows : List (Row M)) (hperm : rows.Perm (processAll mk load)) :
    sortRows rows = sortRows (processAll mk load) ∧
      (sortRows rows).Sorted rowLE := by
  have hnd : ((processAll mk load).map rowKey).Nodup := processAll_keys_nodup mk load
  have hs1 : (sortRows rows).Sorted rowLE := List.sorted_insertionSort rowLE rows
  have hs2 : (sortRows (processAll mk load)).Sorted rowLE :=
    List.sorted_insertionSort rowLE _
  have hp : (sortRows rows).Perm (sortRows (processAll mk load)) :=
    (List.perm_insertionSort rowLE rows).trans
      (hperm.trans (List.perm_insertionSort rowLE _).symm)
  have hnd1 : ((sortRows rows).map rowKey).Nodup := by
    have hq : (sortRows rows).Perm (processAll mk load) :=
      (List.perm_insertionSort rowLE rows).trans hperm
    exact ((hq.map rowKey).nodup_iff).mpr hnd
  exact ⟨sorted_rows_unique hp hs1 hs2 hnd1, hs1⟩

/-- Witness for C4: the two processed rows handed over in swapped order sort
to the same table. -/
theorem claim4_table_order_canonical_witness :
    sortRows [Row.mk "Moderate" "PID" (), Row.mk "Low" "PID" ()]
        = sortRows (processAll (fun _ _ _ => ()) loadTwo) ∧
      (sortRows [Row.mk "Moderate" "PID" (), Row.mk "Low" "PID" ()]).Sorted rowLE := by
  apply claim4_table_order_canonical
  have h : processAll (fun _ _ _ => ()) loadTwo
      = [Row.mk "Low" "PID" (), Row.mk "Moderate" "PID" ()] := rfl
  rw [h]
  exact List.Perm.swap _ _ _

/-- C1 (amended): for a run whose mean time step is nonzero (or a
single-sample run, which falls back to `dt = 0.2`), the settling computation
sets `dt` to the mean of consecutive time differences, sets
`window_size = max(1, trunc(min_settling_duration / dt))` — truncation, not
rounding — scans only the windows starting at indices `0 ≤ i < n − window_size`
(the window starting at `n − window_size` is never examined), and returns the
timestamp at the start of the first window whose `ez` values all have
absolute value at most the threshold; otherwise the final timestamp. -/
theorem claim1_settling_description (df : Run)
    (hdt : df.length ≤ 1 ∨ dtOf df ≠ 0) :
    settling_time df = settlingTimeAmended df := by
  by_cases h : ∃ i < df.length - window_size df, windowPassP df i
  · obtain ⟨hflt, hfpass⟩ := Nat.find_spec h
    have hsome : settleIdx df = some (Nat.find h) := by
      rw [settleIdx, findFirstIdx_eq_some_iff]
      refine ⟨Nat.zero_le _, by omega, ?_, ?_⟩
      · exact (windowOk_iff_pass df _ (by omega)).mpr hfpass
      · intro j hj0 hjlt
        cases hok : windowOk df j with
        | false => rfl
        | true =>
          exfalso
          exact Nat.find_min h hjlt
            ⟨by omega, (windowOk_iff_pass df j (by omega)).mp hok⟩
    rw [settling_time_eq_of_some hsome, settlingTimeAmended, dif_pos h]
  · have hnone : settleIdx df = none := by
      rw [settleIdx, findFirstIdx_eq_none_iff]
      intro j hj0 hjlt
      cases hok : windowOk df j with
      | false => rfl
      | true =>
        exfalso
        exact h ⟨j, by omega, (windowOk_iff_pass df j (by omega)).mp hok⟩
    rw [settling_time_eq_of_none hnone, settlingTimeAmended, dif_neg h]

/-- Counterexample to C1 as stated: on a run of 5 samples with mean time
step 0.75, the code truncates `2.0/0.75` to a 2-sample window and settles at
time 0, while the claimed computation (rounding to a 3-sample window and
scanning every window) never finds a passing window and returns the final
timestamp 3. -/
theorem claim1_counterexample :
    settling_time cxC1run = 0 ∧ settlingTimeClaimed cxC1run = 3 ∧
      settling_time cxC1run ≠ settlingTimeClaimed cxC1run := by
  have hlen : cxC1run.length = 5 := rfl
  have hez : ezs cxC1run = [0, 0, 1/50, 1/50, 1/50] := rfl
  have hdt : dtOf cxC1run = 3/4 := by
    norm_num [dtOf, cxC1run, mean, diffs, times]
  have hws : window_size cxC1run = 2 := by
    rw [window_size, hdt]
    norm_num [pyInt, min_settling_duration]
    rfl
  have hcw : claimedWindowSize cxC1run = 3 := by
    rw [claimedWindowSize, hdt]
    norm_num [min_settling_duration, round_eq]
    rfl
  have hok0 : windowOk cxC1run 0 = true := by
    rw [windowOk, hws, hez]
    norm_num [settling_threshold]
  have hsome : settleIdx cxC1run = some 0 := by
    rw [settleIdx, findFirstIdx_eq_some_iff]
    refine ⟨le_refl 0, ?_, hok0, fun j h1 h2 => absurd h2 (by omega)⟩
    rw [hws, hlen]
    norm_num
  have hcode : settling_time cxC1run = 0 := by
    rw [settling_time_eq_of_some hsome]
    rfl
  have hfail : ∀ i, i < 3 → claimedWindowOk cxC1run i = false := by
    intro i hi
    cases hok : claimedWindowOk cxC1run i with
    | false => rfl
    | true =>
      exfalso
      have hb := (claimedWindowOk_iff cxC1run i (by rw [hcw, hlen]; omega)).mp hok
      have h2 := hb 2 (by rw [hcw]; omega)
      have hget : (ezs cxC1run).getD (i + 2) 0 = 1/50 := by
        interval_cases i <;> rfl
      rw [hget, abs_of_nonneg (by norm_num : (0:ℚ) ≤ 1/50)] at h2
      norm_num [settling_threshold] at h2
  have hcount : cxC1run.length + 1 - claimedWindowSize cxC1run = 3 := by
    rw [hcw]
    rfl
  have hnone : findFirstIdx (claimedWindowOk cxC1run) 0
      (cxC1run.length + 1 - claimedWindowSize cxC1run) = none := by
    rw [hcount, findFirstIdx_eq_none_iff]
    intro j h1 h2
    exact hfail j (by omega)
  have hclaimed : settlingTimeClaimed cxC1run = 3 := by
    rw [settlingTimeClaimed_eq_of_none hnone]
    rfl
  refine ⟨hcode, hclaimed, ?_⟩
  rw [hcode, hclaimed]
  norm_num

/-- Witness for C1 (amended) at the concrete 5-sample run. -/
theorem claim1_settling_description_witness :
    settling_time cxC1run = settlingTimeAmended cxC1run := by
  apply claim1_settling_description
  right
  norm_num [dtOf, cxC1run, mean, diffs, times]

/-- C2 (amended): a non-empty all-zero-error run (with `pos_z = target_z +
ez` and nonzero mean time step) has RMSE = MAE = 0 and overshoot 0, and —
provided the run is strictly longer than its settling window — its settling
time is the first timestamp. -/
theorem claim2_zero_error_metrics (df : Run) (hne : df ≠ [])
    (hez : ∀ s ∈ df, s.ez = 0)
    (hpos : ∀ s ∈ df, s.posz = target_z + s.ez)
    (hwin : window_size df < df.length)
    (hdt : dtOf df ≠ 0) :
    rmse df = 0 ∧ mse df = 0 ∧ mae df = 0 ∧ overshoot df = 0 ∧
      settling_time df = firstTime df := by
  have hmse : mse df = 0 := by
    rw [mse, mean]
    have hsum : ((ezs df).map (fun e => e ^ 2)).sum = 0 := by
      apply List.sum_eq_zero
      intro x hx
      simp only [ezs, List.map_map, List.mem_map, Function.comp] at hx
      obtain ⟨s, hs, rfl⟩ := hx
      rw [hez s hs]
      norm_num
    rw [hsum, zero_div]
  have hmae : mae df = 0 := by
    rw [mae, mean]
    have hsum : ((ezs df).map (fun e => |e|)).sum = 0 := by
      apply List.sum_eq_zero
      intro x hx
      simp only [ezs, List.map_map, List.mem_map, Function.comp] at hx
      obtain ⟨s, hs, rfl⟩ := hx
      rw [hez s hs]
      norm_num
    rw [hsum, zero_div]
  have hrmse : rmse df = 0 := by
    rw [rmse, hmse]
    simp
  have hover : overshoot df = 0 := by
    have hmapne : (poszs df).map (fun p => p - target_z) ≠ [] := by
      intro hc
      rw [List.map_eq_nil_iff] at hc
      rw [poszs, List.map_eq_nil_iff] at hc
      exact hne hc
    have hall : ∀ x ∈ (poszs df).map (fun p => p - target_z), x = 0 := by
      intro x hx
      simp only [poszs, List.map_map, List.mem_map, Function.comp] at hx
      obtain ⟨s, hs, rfl⟩ := hx
      rw [hpos s hs, hez s hs]
      ring
    rw [overshoot, hall _ (npMax_mem hmapne)]
    exact max_self 0
  refine ⟨hrmse, hmse, hmae, hover, ?_⟩
  have hpass0 : windowPassP df 0 := by
    intro j hj
    have hjlt : 0 + j < (ezs df).length := by rw [length_ezs]; omega
    rw [List.getD_eq_getElem _ _ hjlt]
    have hm : (ezs df)[0 + j] ∈ ezs df := List.getElem_mem hjlt
    obtain ⟨s, hs, hse⟩ :=
      List.mem_map.mp (show (ezs df)[0 + j] ∈ df.map Sample.ez from hm)
    rw [← hse, hez s hs]
    norm_num [settling_threshold]
  have hsome : settleIdx df = some 0 := by
    rw [settleIdx, findFirstIdx_eq_some_iff]
    refine ⟨le_refl 0, by omega, ?_, fun j h1 h2 => absurd h2 (by omega)⟩
    exact (windowOk_iff_pass df 0 (by omega)).mpr hpass0
  rw [settling_time_eq_of_some hsome, getD_zero_eq_headD]
  rfl

/-- Counterexample to C2 as stated: the two-sample zero-error run satisfies
every hypothesis of the claim, yet its settling loop runs zero iterations
(`range(2 − 2)`), so the settling time is the final timestamp 1, not the
first timestamp 0. -/
theorem claim2_counterexample :
    cxC2run ≠ [] ∧ (∀ s ∈ cxC2run, s.ez = 0) ∧
      (∀ s ∈ cxC2run, s.posz = target_z + s.ez) ∧
      settling_time cxC2run ≠ firstTime cxC2run := by
  refine ⟨List.cons_ne_nil _ _, ?_, ?_, ?_⟩
  · intro s hs
    simp only [cxC2run, List.mem_cons, List.not_mem_nil, or_false] at hs
    rcases hs with rfl | rfl <;> rfl
  · intro s hs
    simp only [cxC2run, List.mem_cons, List.not_mem_nil, or_false] at hs
    rcases hs with rfl | rfl <;> norm_num [target_z]
  · have hdt : dtOf cxC2run = 1 := by
      norm_num [dtOf, cxC2run, mean, diffs, times]
    have hws : window_size cxC2run = 2 := by
      rw [window_size, hdt]
      norm_num [pyInt, min_settling_duration]
      rfl
    have hnone : settleIdx cxC2run = none := by
      rw [settleIdx]
      have hc : cxC2run.length - window_size cxC2run = 0 := by
        rw [hws]
        rfl
      rw [hc]
      rfl
    rw [settling_time_eq_of_none hnone]
    have h1 : lastTime cxC2run = 1 := rfl
    have h2 : firstTime cxC2run = 0 := rfl
    rw [h1, h2]
    norm_num

/-- Witness for C2 (amended) at a three-sample zero-error run. -/
theorem claim2_zero_error_metrics_witness :
    rmse witC2run = 0 ∧ mse witC2run = 0 ∧ mae witC2run = 0 ∧
      overshoot witC2run = 0 ∧ settling_time witC2run = firstTime witC2run := by
  apply claim2_zero_error_metrics
  · exact List.cons_ne_nil _ _
  · intro s hs
    simp only [witC2run, List.mem_cons, List.not_mem_nil, or_false] at hs
    rcases hs with rfl | rfl | rfl <;> rfl
  · intro s hs
    simp only [witC2run, List.mem_cons, List.not_mem_nil, or_false] at hs
    rcases hs with rfl | rfl | rfl <;> norm_num [target_z]
  · have hdt : dtOf witC2run = 1 := by
      norm_num [dtOf, witC2run, mean, diffs, times]
    have hws : window_size witC2run = 2 := by
      rw [window_size, hdt]
      norm_num [pyInt, min_settling_duration]
      rfl
    rw [hws, show witC2run.length = 3 from rfl]
    omega
  · norm_num [dtOf, witC2run, mean, diffs, times]

/-- C9: the values placed in the result row are exactly the unrounded
metrics of `compute_metrics` rounded at the reporting boundary (RMSE and MAE
to 3 decimals, settling time and energy to 1, overshoot to 2); the metrics
themselves are the raw formulas with no rounding inside, as the concrete run
with `mae = 1/3` (reported as `0.333`) exhibits. -/
theorem claim9_rounding_at_reporting (df : Run) :
    reportedValues df =
      (pyRoundR 3 (rmse df), pyRound 3 (mae df), pyRound 1 (settling_time df),
        pyRound 1 (control_energy df), pyRound 2 (overshoot df)) ∧
    compute_metrics df =
      { rmseVal := Real.sqrt (mean ((ezs df).map (fun e => e ^ 2)))
        maeVal := mean ((ezs df).map (fun e => |e|))
        settlingVal := settling_time df
        energyVal := (((us df).map (fun x => x ^ 2)).sum) * 2000
        overshootVal := max 0 (npMax ((poszs df).map (fun p => p - target_z))) } ∧
    mae demoRun = 1/3 ∧ pyRound 3 (mae demoRun) = 333/1000 := by
  refine ⟨rfl, rfl, ?_, ?_⟩
  · norm_num [mae, demoRun, mean, ezs]
  · have h : mae demoRun = 1/3 := by
      norm_num [mae, demoRun, mean, ezs]
    rw [h, pyRound, rndHalfEven]
    norm_num

end Analysis
